import Mathlib

set_option maxHeartbeats 1000000

/-!
Shallow embedding of the kratos HTTP context wrapper
(src/transport/http/context.go) and of the contrib msgpack codec module
(whose Go source is absent from src/, so it is modelled from the spec).

Conventions of the embedding:
* Go `string` payloads and `interface` values carried by the wrapper are
  modelled as `Val := String`; Go `error` values as `Option EMsg`
  (`none` = nil error).
* `url.Values` / `http.Header` (Go `map[string][]string`) are modelled as
  association lists `List (Val × List Val)`; Go map reads are observed with
  `lookupA`.
* Pointers that may be nil (`c.req`, `c.res`) are `Option`; an operation
  that would dereference a nil pointer returns `none` (the model of a
  nil-pointer panic), while a completed call returns `some` of its result.
* `http.ResponseWriter` is modelled with the documented net/http contract:
  the first `WriteHeader` records the status code and snapshots the header
  map as the headers that are actually sent; changing the header map
  afterwards has no effect on the sent response.
-/

/-- Go string payloads and interface values are modelled as strings. -/
abbrev Val := String

/-- Go error values are modelled by their message; `none` stands for nil. -/
abbrev EMsg := String

/-- Model of `url.Values` and `http.Header`: a multi-value string mapping. -/
abbrev UrlValues := List (Val × List Val)

/-- Association-list lookup, the observation of a Go map read. -/
def lookupA {α β : Type} [DecidableEq α] (k : α) : List (α × β) → Option β
  | [] => none
  | (k0, v) :: t => if k0 = k then some v else lookupA k t

/-- Association-list update with the replace-or-append semantics of
`http.Header.Set` (one value per key after a Set). -/
def setAssoc {α β : Type} [DecidableEq α] : List (α × β) → α → β → List (α × β)
  | [], k, v => [(k, v)]
  | (k0, v0) :: t, k, v => if k0 = k then (k, v) :: t else (k0, v0) :: setAssoc t k v

/-- Errors reported by a Go `context.Context`; `canceled` is `context.Canceled`. -/
inductive CtxErr where
  | canceled
  | deadlineExceeded
deriving DecidableEq, Repr

/-- Model of the cancellation context carried by an `*http.Request`
(`req.Context()`): an optional deadline, an optional done channel
(`none` = nil channel), the current error, and the context values
(keys and values abstracted to naturals). -/
structure Ctx where
  deadline : Option Nat
  doneCh : Option Unit
  err : Option CtxErr
  values : List (Nat × Nat)

/-- Observation of `ctx.Deadline()`: the deadline and an ok flag; with no
deadline it reports the zero time and false. -/
def ctxDeadline (x : Ctx) : Nat × Bool :=
  match x.deadline with
  | some t => (t, true)
  | none => (0, false)

/-- Observation of `ctx.Value(key)`. -/
def ctxValue (x : Ctx) (k : Nat) : Option Nat :=
  lookupA k x.values

/-- Model of `*http.Request` as the wrapper observes it: its header map,
the route variables the mux router captured for it (`mux.Vars`), its parsed
URL query, the outcome of `ParseForm` (either the parse error or the parsed
form mapping), and its cancellation context. -/
structure Req where
  header : UrlValues
  muxVars : List (Val × Val)
  query : UrlValues
  formResult : Except EMsg UrlValues
  ctx : Ctx

/-- Model of `http.ResponseWriter` under the net/http contract:
`header` is the handler-visible header map, `status` the code recorded by
the first `WriteHeader`, `sent` the snapshot of the header map taken at
that first `WriteHeader` (these are the headers actually transmitted;
later changes to `header` are not), `body` the bytes written, and
`failWrite` an injected write error (`some e` makes every `Write` fail
with `e`, modelling a broken connection). -/
structure Res where
  header : List (Val × Val)
  status : Option Nat
  sent : Option (List (Val × Val))
  body : List Nat
  failWrite : Option EMsg
deriving DecidableEq, Repr

/-- Response writer before anything was written. -/
def Res.fresh : Res := ⟨[], none, none, [], none⟩

/-- Model of `ResponseWriter.WriteHeader`: the first call records the code
and snapshots the current header map as the sent headers; any further call
is a no-op (net/http ignores superfluous WriteHeader calls). -/
def Res.writeHeader (w : Res) (code : Nat) : Res :=
  match w.status with
  | some _ => w
  | none => { w with status := some code, sent := some w.header }

/-- Model of `Header().Set(k, v)`: updates the handler-visible header map
only; the sent snapshot, if already taken, is unaffected. -/
def Res.headerSet (w : Res) (k v : Val) : Res :=
  { w with header := setAssoc w.header k v }

/-- Model of `ResponseWriter.Write`: an implicit `WriteHeader 200` if no
status was written yet, then appends the bytes to the body, or fails with
the injected write error, appending nothing. -/
def Res.write (w : Res) (data : List Nat) : Res × Option EMsg :=
  let w1 := w.writeHeader 200
  match w1.failWrite with
  | some e => (w1, some e)
  | none => ({ w1 with body := w1.body ++ data }, none)

/-- Headers in effect on the response that is sent: the snapshot taken at
the first `WriteHeader` when there was one, otherwise the current header
map (sent when the handler returns without writing a status). -/
def Res.sentHeaders (w : Res) : List (Val × Val) :=
  match w.sent with
  | some h => h
  | none => w.header

/-- Model of the owning server configuration the wrapper reaches through
`c.route.srv`: the configured response encoder `enc` (split into its pure
serialization, which either fails or yields the bytes it writes to the
response) and the configured request decoder `dec` used by `Bind`
(returning the binding error, if any; both dereference the request they
are handed, as the defaults do). -/
structure Srv where
  enc : Req → Val → Except EMsg (List Nat)
  dec : Req → Val → Option EMsg

/-- Model of `Route`: the part the wrapper uses, its back-reference to the
owning server. -/
structure Route where
  srv : Srv

/-- Embedding of the `wrapper` struct (context.go lines 46-50): the route
back-reference and the attached request and response-writer pointers,
nil (`none`) before `Reset` attaches them. -/
structure wrapper where
  route : Route
  req : Option Req
  res : Option Res

/-- Replaces the wrapper's response-writer state after a write. -/
def setRes (c : wrapper) (w : Res) : wrapper :=
  { c with res := some w }

/-- Running the configured encoder `srv.enc(res, req, v)` against the
response writer: on serialization failure the error is returned and
nothing is written; on success the bytes are written (which can itself
fail with a write error). -/
def applyEnc (s : Srv) (w : Res) (r : Req) (v : Val) : Res × Option EMsg :=
  match s.enc r v with
  | .error e => (w, some e)
  | .ok bs => w.write bs

/-- Bytes of a Go `[]byte(text)` conversion, modelled per character. -/
def stringBytes (s : Val) : List Nat :=
  s.data.map Char.toNat

/-- Model of an `io.Reader` as `io.Copy` consumes it: the successful reads
it will deliver, then either EOF (`none`) or a read error. -/
structure Reader where
  chunks : List (List Nat)
  readErr : Option EMsg

/-- Model of `io.Copy(w, rd)`: writes each delivered chunk in turn,
stopping with the write error if a write fails; after the reader is
exhausted, returns the reader's final error (`none` for plain EOF). -/
def ioCopy (w : Res) : List (List Nat) → Option EMsg → Res × Option EMsg
  | [], rerr => (w, rerr)
  | d :: t, rerr =>
    match w.write d with
    | (w1, some e) => (w1, some e)
    | (w1, none) => ioCopy w1 t rerr

/-- Embedding of `wrapper.Header` (context.go lines 52-54): returns
`c.req.Header`, dereferencing the request pointer. -/
def wrapper.Header (c : wrapper) : Option UrlValues :=
  c.req.map Req.header

/-- Adaptation of the mux route variables into a multi-value mapping, one
single-element list per captured key (context.go lines 57-61). -/
def varsOf (r : Req) : UrlValues :=
  r.muxVars.map fun p => (p.1, [p.2])

/-- Embedding of `wrapper.Vars` (context.go lines 56-63). -/
def wrapper.Vars (c : wrapper) : Option UrlValues :=
  c.req.map varsOf

/-- Outcome of `Form` on an attached request (context.go lines 65-68): the
empty mapping when `ParseForm` failed, the parsed form otherwise. -/
def formOf (r : Req) : UrlValues :=
  match r.formResult with
  | .error _ => []
  | .ok f => f

/-- Embedding of `wrapper.Form` (context.go lines 64-69). -/
def wrapper.Form (c : wrapper) : Option UrlValues :=
  c.req.map formOf

/-- Embedding of `wrapper.Query` (context.go lines 70-72). -/
def wrapper.Query (c : wrapper) : Option UrlValues :=
  c.req.map Req.query

/-- Embedding of `wrapper.Bind` (context.go line 78): hands the request to
the server's configured decoder. -/
def wrapper.Bind (c : wrapper) (v : Val) : Option (Option EMsg) :=
  c.req.map fun r => c.route.srv.dec r v

/-- Embedding of `wrapper.BindVars` (context.go line 79); `bQ` is the
external `binding.BindQuery`. -/
def wrapper.BindVars (bQ : UrlValues → Val → Option EMsg) (c : wrapper) (v : Val) :
    Option (Option EMsg) :=
  (wrapper.Vars c).map fun vs => bQ vs v

/-- Embedding of `wrapper.BindQuery` (context.go line 80). -/
def wrapper.BindQuery (bQ : UrlValues → Val → Option EMsg) (c : wrapper) (v : Val) :
    Option (Option EMsg) :=
  (wrapper.Query c).map fun qs => bQ qs v

/-- Embedding of `wrapper.BindForm` (context.go line 81); `bF` is the
external `binding.BindForm`, which dereferences the request. -/
def wrapper.BindForm (bF : Req → Val → Option EMsg) (c : wrapper) (v : Val) :
    Option (Option EMsg) :=
  c.req.map fun r => bF r v

/-- Embedding of `wrapper.Returns` (context.go lines 82-90): a non-nil
error is returned as-is before anything touches the encoder or the
response; otherwise the configured encoder runs against the attached
request and response. -/
def wrapper.Returns (c : wrapper) (v : Val) (err : Option EMsg) :
    Option (wrapper × Option EMsg) :=
  match err with
  | some e => some (c, some e)
  | none =>
    match c.req, c.res with
    | some r, some w =>
      let p := applyEnc c.route.srv w r v
      some (setRes c p.1, p.2)
    | _, _ => none

/-- Embedding of `wrapper.Result` (context.go lines 91-97): writes the
status code first, then runs the configured encoder. -/
def wrapper.Result (c : wrapper) (code : Nat) (v : Val) :
    Option (wrapper × Option EMsg) :=
  match c.req, c.res with
  | some r, some w =>
    let w1 := w.writeHeader code
    let p := applyEnc c.route.srv w1 r v
    some (setRes c p.1, p.2)
  | _, _ => none

/-- Embedding of `wrapper.JSON` (context.go lines 98-102), with `jE` the
external JSON encoder: writes the status code, then sets the Content-Type
header, then writes the encoded body. -/
def wrapper.JSON (jE : Val → List Nat) (c : wrapper) (code : Nat) (v : Val) :
    Option (wrapper × Option EMsg) :=
  match c.res with
  | none => none
  | some w =>
    let w1 := (w.writeHeader code).headerSet "Content-Type" "application/json"
    let p := w1.write (jE v)
    some (setRes c p.1, p.2)

/-- Embedding of `wrapper.XML` (context.go lines 103-107), with `xE` the
external XML encoder. -/
def wrapper.XML (xE : Val → List Nat) (c : wrapper) (code : Nat) (v : Val) :
    Option (wrapper × Option EMsg) :=
  match c.res with
  | none => none
  | some w =>
    let w1 := (w.writeHeader code).headerSet "Content-Type" "application/xml"
    let p := w1.write (xE v)
    some (setRes c p.1, p.2)

/-- Embedding of `wrapper.String` (context.go lines 108-113): writes the
status code, sets text/plain, writes the text, and returns nil regardless
of the write's outcome. -/
def wrapper.String (c : wrapper) (code : Nat) (text : Val) :
    Option (wrapper × Option EMsg) :=
  match c.res with
  | none => none
  | some w =>
    let w1 := (w.writeHeader code).headerSet "Content-Type" "text/plain"
    let p := w1.write (stringBytes text)
    some (setRes c p.1, none)

/-- Embedding of `wrapper.Blob` (context.go lines 114-119): like `String`
with a caller-supplied content type and byte payload; the write's outcome
is likewise discarded. -/
def wrapper.Blob (c : wrapper) (code : Nat) (contentType : Val) (data : List Nat) :
    Option (wrapper × Option EMsg) :=
  match c.res with
  | none => none
  | some w =>
    let w1 := (w.writeHeader code).headerSet "Content-Type" contentType
    let p := w1.write data
    some (setRes c p.1, none)

/-- Embedding of `wrapper.Stream` (context.go lines 120-125): writes the
status code, sets the caller-supplied content type, then copies from the
reader and returns the copy's error. -/
def wrapper.Stream (c : wrapper) (code : Nat) (contentType : Val) (rd : Reader) :
    Option (wrapper × Option EMsg) :=
  match c.res with
  | none => none
  | some w =>
    let w1 := (w.writeHeader code).headerSet "Content-Type" contentType
    let p := ioCopy w1 rd.chunks rd.readErr
    some (setRes c p.1, p.2)

/-- Embedding of `wrapper.Reset` (context.go lines 126-129): rebinds the
wrapper to a new response/request pair. -/
def wrapper.Reset (c : wrapper) (w : Res) (r : Req) : wrapper :=
  { c with res := some w, req := some r }

/-- Embedding of `wrapper.Deadline` (context.go lines 130-135): the zero
time and false with no request attached, otherwise the request context's
deadline. -/
def wrapper.Deadline (c : wrapper) : Nat × Bool :=
  match c.req with
  | none => (0, false)
  | some r => ctxDeadline r.ctx

/-- Embedding of `wrapper.Done` (context.go lines 136-141): the nil
channel with no request attached, otherwise the request context's done
channel. -/
def wrapper.Done (c : wrapper) : Option Unit :=
  match c.req with
  | none => none
  | some r => r.ctx.doneCh

/-- Embedding of `wrapper.Err` (context.go lines 142-147):
`context.Canceled` with no request attached, otherwise the request
context's error. -/
def wrapper.Err (c : wrapper) : Option CtxErr :=
  match c.req with
  | none => some CtxErr.canceled
  | some r => r.ctx.err

/-- Embedding of `wrapper.Value` (context.go lines 148-153): absent with
no request attached, otherwise the request context's value for the key. -/
def wrapper.Value (c : wrapper) (k : Nat) : Option Nat :=
  match c.req with
  | none => none
  | some r => ctxValue r.ctx k


/-! Helper lemmas about the response-writer model. -/

@[simp]
lemma writeHeader_failWrite (w : Res) (code : Nat) :
    (w.writeHeader code).failWrite = w.failWrite := by
  unfold Res.writeHeader
  cases h : w.status <;> simp [h]

@[simp]
lemma writeHeader_body (w : Res) (code : Nat) :
    (w.writeHeader code).body = w.body := by
  unfold Res.writeHeader
  cases h : w.status <;> simp [h]

lemma writeHeader_status (w : Res) (code : Nat) :
    (w.writeHeader code).status = some (w.status.getD code) := by
  unfold Res.writeHeader
  cases h : w.status <;> simp [h]

@[simp]
lemma headerSet_failWrite (w : Res) (k v : Val) :
    (w.headerSet k v).failWrite = w.failWrite := rfl

@[simp]
lemma headerSet_body (w : Res) (k v : Val) :
    (w.headerSet k v).body = w.body := rfl

@[simp]
lemma headerSet_status (w : Res) (k v : Val) :
    (w.headerSet k v).status = w.status := rfl

@[simp]
lemma write_snd (w : Res) (d : List Nat) :
    (w.write d).2 = w.failWrite := by
  unfold Res.write
  simp only [writeHeader_failWrite]
  cases h : w.failWrite <;> simp [h]

@[simp]
lemma write_fst_failWrite (w : Res) (d : List Nat) :
    ((w.write d).1).failWrite = w.failWrite := by
  unfold Res.write
  simp only [writeHeader_failWrite]
  cases h : w.failWrite <;> simp [h]

@[simp]
lemma write_fst_body (w : Res) (d : List Nat) :
    ((w.write d).1).body =
      match w.failWrite with
      | some _ => w.body
      | none => w.body ++ d := by
  unfold Res.write
  simp only [writeHeader_failWrite]
  cases h : w.failWrite <;> simp [h]

lemma write_fst_status (w : Res) (d : List Nat) :
    ((w.write d).1).status = some (w.status.getD 200) := by
  unfold Res.write
  simp only [writeHeader_failWrite]
  cases h : w.failWrite <;> simp [h, writeHeader_status]

lemma ioCopy_snd (chunks : List (List Nat)) (w : Res) (rerr : Option EMsg) :
    (ioCopy w chunks rerr).2 =
      match w.failWrite, chunks with
      | some e, _ :: _ => some e
      | _, _ => rerr := by
  induction chunks generalizing w with
  | nil => cases h : w.failWrite <;> simp [ioCopy, h]
  | cons d t ih =>
    unfold ioCopy
    cases h : w.write d with
    | mk w1 e =>
      have hsnd : e = w.failWrite := by
        have := write_snd w d
        rw [h] at this
        exact this
      have hfst : w1.failWrite = w.failWrite := by
        have := write_fst_failWrite w d
        rw [h] at this
        exact this
      cases hw : w.failWrite with
      | none =>
        rw [hw] at hsnd
        subst hsnd
        simp [ih, hfst, hw]
      | some e0 =>
        rw [hw] at hsnd
        subst hsnd
        simp

lemma ioCopy_fst_body (chunks : List (List Nat)) (w : Res) (rerr : Option EMsg) :
    ((ioCopy w chunks rerr).1).body =
      match w.failWrite with
      | some _ => w.body
      | none => w.body ++ chunks.flatten := by
  induction chunks generalizing w with
  | nil => cases h : w.failWrite <;> simp [ioCopy, h]
  | cons d t ih =>
    unfold ioCopy
    cases h : w.write d with
    | mk w1 e =>
      have hsnd : e = w.failWrite := by
        have := write_snd w d
        rw [h] at this
        exact this
      have hfst : w1.failWrite = w.failWrite := by
        have := write_fst_failWrite w d
        rw [h] at this
        exact this
      have hbody : w1.body =
          match w.failWrite with
          | some _ => w.body
          | none => w.body ++ d := by
        have := write_fst_body w d
        rw [h] at this
        exact this
      cases hw : w.failWrite with
      | none =>
        rw [hw] at hsnd hbody
        subst hsnd
        simp [ih, hfst, hw, hbody, List.append_assoc]
      | some e0 =>
        rw [hw] at hsnd hbody
        subst hsnd
        simp [hbody, hw]

/-! Concrete fixtures used by closed theorems and witnesses. -/

/-- A cancellation context with nothing set. -/
def testCtx : Ctx := ⟨none, none, none, []⟩

/-- A request whose router captured the route variables id equal to 42 and
whose form parses to the empty mapping. -/
def testReq : Req := ⟨[], [("id", "42")], [], Except.ok [], testCtx⟩

/-- A server whose configured encoder always produces the byte 111 and
whose decoder always succeeds. -/
def testSrv : Srv := ⟨fun _ _ => Except.ok [111], fun _ _ => none⟩

/-- The route of `testSrv`. -/
def testRoute : Route := ⟨testSrv⟩

/-- A wrapper attached to `testReq` and a fresh response writer. -/
def testW : wrapper := ⟨testRoute, some testReq, some Res.fresh⟩

/-- A wrapper on which `Reset` has never been called: no request and no
response writer are attached. -/
def testDetached : wrapper := ⟨testRoute, none, none⟩

/-- A stand-in for the external JSON encoder, producing the byte 106. -/
def testJE : Val → List Nat := fun _ => [106]

lemma lookupA_map_pair (l : List (Val × Val)) (k : Val) :
    lookupA k (l.map fun p => (p.1, [p.2])) = (lookupA k l).map fun v => [v] := by
  induction l with
  | nil => rfl
  | cons p t ih =>
    obtain ⟨k0, v0⟩ := p
    by_cases h : k0 = k <;> simp [lookupA, h, ih]

/-- C1: for every attached request whose form data fails to parse, Form
returns the empty multi-value mapping, surfacing no error; for every
attached request whose form data parses successfully, Form returns the
parsed form mapping. -/
theorem form_silent_failure (rt : Route) (res0 : Option Res) (hdr q : UrlValues)
    (mv : List (Val × Val)) (x : Ctx) (e : EMsg) (f : UrlValues) :
    wrapper.Form ⟨rt, some ⟨hdr, mv, q, Except.error e, x⟩, res0⟩ = some [] ∧
    wrapper.Form ⟨rt, some ⟨hdr, mv, q, Except.ok f, x⟩, res0⟩ = some f :=
  ⟨rfl, rfl⟩

/-- C4: on a wrapper with no request attached, Deadline reports the zero
time and false, Done reports the nil channel, Err reports context.Canceled
and Value reports absent for every key; with a request attached each of
the four forwards to the request's cancellation context. -/
theorem ctx_methods_guard_detached (rt : Route) (k : Nat) (r : Req)
    (res0 res1 : Option Res) :
    wrapper.Deadline ⟨rt, none, res0⟩ = (0, false) ∧
    wrapper.Done ⟨rt, none, res0⟩ = none ∧
    wrapper.Err ⟨rt, none, res0⟩ = some CtxErr.canceled ∧
    wrapper.Value ⟨rt, none, res0⟩ k = none ∧
    wrapper.Deadline ⟨rt, some r, res1⟩ = ctxDeadline r.ctx ∧
    wrapper.Done ⟨rt, some r, res1⟩ = r.ctx.doneCh ∧
    wrapper.Err ⟨rt, some r, res1⟩ = r.ctx.err ∧
    wrapper.Value ⟨rt, some r, res1⟩ k = ctxValue r.ctx k :=
  ⟨rfl, rfl, rfl, rfl, rfl, rfl, rfl, rfl⟩

/-- C5: Vars returns the mux route variables adapted into a multi-value
mapping in which every captured key maps to exactly the one-element list
holding its captured value; in particular a request with route variables
id equal to 42 yields the single value 42 under the key id. -/
theorem vars_single_value (rt : Route) (r : Req) (res0 : Option Res) (k : Val) :
    wrapper.Vars ⟨rt, some r, res0⟩ = some (varsOf r) ∧
    lookupA k (varsOf r) = (lookupA k r.muxVars).map (fun v => [v]) ∧
    lookupA "id" (varsOf testReq) = some ["42"] :=
  ⟨rfl, lookupA_map_pair _ _, rfl⟩

/-- C10: String and Blob always return nil, discarding the outcome of the
body write even when the write fails. -/
theorem string_blob_return_nil (rt : Route) (req0 : Option Req) (w : Res)
    (code : Nat) (text ct : Val) (data : List Nat) :
    (wrapper.String ⟨rt, req0, some w⟩ code text).map (fun p => p.2) = some none ∧
    (wrapper.Blob ⟨rt, req0, some w⟩ code ct data).map (fun p => p.2) = some none :=
  ⟨rfl, rfl⟩

/-- C7: Stream copies the reader's bytes to the response until the reader
is exhausted or a read or write error occurs, and returns that error: the
reader's final error after a complete copy (nil on plain EOF), or the
write error that interrupted the copy. -/
theorem stream_copies_until_error (rt : Route) (req0 : Option Req) (w : Res)
    (code : Nat) (ct : Val) (chunks : List (List Nat)) (rerr : Option EMsg) :
    (wrapper.Stream ⟨rt, req0, some w⟩ code ct ⟨chunks, rerr⟩).map (fun p => p.2) =
      some (match w.failWrite, chunks with
            | some e, _ :: _ => some e
            | _, _ => rerr) ∧
    (wrapper.Stream ⟨rt, req0, some w⟩ code ct ⟨chunks, rerr⟩).map
        (fun p => p.1.res.map Res.body) =
      some (some (match w.failWrite with
                  | some _ => w.body
                  | none => w.body ++ chunks.flatten)) := by
  have h1 : ((w.writeHeader code).headerSet "Content-Type" ct).failWrite
      = w.failWrite := by simp
  have h2 : ((w.writeHeader code).headerSet "Content-Type" ct).body = w.body := by
    simp
  constructor
  · simp only [wrapper.Stream]
    rw [ioCopy_snd, h1]
    rfl
  · simp only [wrapper.Stream]
    have h3 := ioCopy_fst_body chunks ((w.writeHeader code).headerSet "Content-Type" ct) rerr
    rw [h1, h2] at h3
    rw [← h3]
    rfl

/-- C9 (amended): on a wrapper with no request and no response attached,
every context-wrapper operation other than Deadline/Done/Err/Value
dereferences a nil pointer and panics — except Returns, which given a
non-nil error returns it unchanged before touching either pointer, and
panics only on its nil-error path. -/
theorem detached_ops_panic_except_returns (rt : Route)
    (bQ : UrlValues → Val → Option EMsg) (bF : Req → Val → Option EMsg)
    (jE xE : Val → List Nat) (v text ct : Val) (code : Nat)
    (data : List Nat) (rd : Reader) (e : EMsg) :
    wrapper.Header ⟨rt, none, none⟩ = none ∧
    wrapper.Vars ⟨rt, none, none⟩ = none ∧
    wrapper.Query ⟨rt, none, none⟩ = none ∧
    wrapper.Form ⟨rt, none, none⟩ = none ∧
    wrapper.Bind ⟨rt, none, none⟩ v = none ∧
    wrapper.BindVars bQ ⟨rt, none, none⟩ v = none ∧
    wrapper.BindQuery bQ ⟨rt, none, none⟩ v = none ∧
    wrapper.BindForm bF ⟨rt, none, none⟩ v = none ∧
    wrapper.Result ⟨rt, none, none⟩ code v = none ∧
    wrapper.JSON jE ⟨rt, none, none⟩ code v = none ∧
    wrapper.XML xE ⟨rt, none, none⟩ code v = none ∧
    wrapper.String ⟨rt, none, none⟩ code text = none ∧
    wrapper.Blob ⟨rt, none, none⟩ code ct data = none ∧
    wrapper.Stream ⟨rt, none, none⟩ code ct rd = none ∧
    wrapper.Returns ⟨rt, none, none⟩ v none = none ∧
    wrapper.Returns ⟨rt, none, none⟩ v (some e) = some (⟨rt, none, none⟩, some e) :=
  ⟨rfl, rfl, rfl, rfl, rfl, rfl, rfl, rfl, rfl, rfl, rfl, rfl, rfl, rfl, rfl, rfl⟩

/-- C9 counterexample: calling Returns with a non-nil error on a wrapper
with no request and no response attached does not panic; it returns the
error unchanged. -/
theorem returns_detached_counterexample :
    wrapper.Returns testDetached "v" (some "boom") = some (testDetached, some "boom") ∧
    wrapper.Returns testDetached "v" (some "boom") ≠ none :=
  ⟨rfl, by simp [wrapper.Returns]⟩

/-- C3 (evaluating the code at the failing input): on a wrapper attached
to a fresh response writer, JSON 200 records status 200 and sets
Content-Type application/json in the handler-visible header map, but the
Set happens after WriteHeader, so the headers in effect on the sent
response do not contain Content-Type. -/
theorem json_content_type_set_after_status :
    (wrapper.JSON testJE testW 200 "x").map
        (fun p => p.1.res.map fun w =>
          (w.status, lookupA "Content-Type" w.sentHeaders,
           lookupA "Content-Type" w.header)) =
      some (some (some 200, none, some "application/json")) := rfl

/-- C2: Returns short-circuits every non-nil error, returning it unchanged
with the wrapper (hence the response state) untouched and the configured
encoder never invoked; with a nil error it runs the configured encoder
against the attached request and response and returns the encoder's
error: nil on success, with the encoded bytes written to the body, and
the serialization error on failure, with the response unchanged. -/
theorem returns_contract (rt : Route) (r : Req) (w : Res) (v : Val) :
    (∀ (c : wrapper) (e : EMsg), wrapper.Returns c v (some e) = some (c, some e)) ∧
    wrapper.Returns ⟨rt, some r, some w⟩ v none =
      some (setRes ⟨rt, some r, some w⟩ (applyEnc rt.srv w r v).1,
            (applyEnc rt.srv w r v).2) ∧
    (∀ bs, rt.srv.enc r v = Except.ok bs → w.failWrite = none →
      (applyEnc rt.srv w r v).2 = none ∧
      ((applyEnc rt.srv w r v).1).body = w.body ++ bs) ∧
    (∀ e2, rt.srv.enc r v = Except.error e2 → applyEnc rt.srv w r v = (w, some e2)) := by
  refine ⟨fun c e => rfl, rfl, ?_, ?_⟩
  · intro bs hok hfw
    unfold applyEnc
    rw [hok]
    exact ⟨by simp [hfw], by simp [hfw]⟩
  · intro e2 herr
    unfold applyEnc
    rw [herr]

/-- Witness for C2: at the test fixtures, Returns short-circuits the error
boom, and with a nil error the encoder's byte is written and nil returned. -/
theorem returns_contract_witness :
    wrapper.Returns testW "x" (some "boom") = some (testW, some "boom") ∧
    (applyEnc testRoute.srv Res.fresh testReq "x").2 = none ∧
    ((applyEnc testRoute.srv Res.fresh testReq "x").1).body = Res.fresh.body ++ [111] :=
  ⟨(returns_contract testRoute testReq Res.fresh "x").1 testW "boom",
   ((returns_contract testRoute testReq Res.fresh "x").2.2.1 [111] rfl rfl).1,
   ((returns_contract testRoute testReq Res.fresh "x").2.2.1 [111] rfl rfl).2⟩

/-- C8: on a response with no status written yet, Result 200 records
status 200 on the response first (whatever the encoder then does), then
writes a body equal to the configured encoder's output for the payload
and returns nil; on encoder failure it returns the encoder's error. -/
theorem result_contract (rt : Route) (r : Req) (w : Res) (v : Val) :
    (w.status = none →
      (wrapper.Result ⟨rt, some r, some w⟩ 200 v).map
          (fun p => p.1.res.map Res.status) = some (some (some 200))) ∧
    (∀ bs, w.status = none → w.failWrite = none → rt.srv.enc r v = Except.ok bs →
      (wrapper.Result ⟨rt, some r, some w⟩ 200 v).map
          (fun p => (p.1.res.map Res.body, p.2)) =
        some (some (w.body ++ bs), none)) ∧
    (∀ e2, rt.srv.enc r v = Except.error e2 →
      (wrapper.Result ⟨rt, some r, some w⟩ 200 v).map (fun p => p.2) =
        some (some e2)) := by
  refine ⟨?_, ?_, ?_⟩
  · intro hst
    simp only [wrapper.Result, setRes]
    cases henc : rt.srv.enc r v with
    | error e2 =>
      simp [applyEnc, henc, writeHeader_status, hst]
    | ok bs =>
      simp [applyEnc, henc, write_fst_status, writeHeader_status, hst]
  · intro bs hst hfw henc
    simp only [wrapper.Result, setRes]
    simp [applyEnc, henc, hfw]
  · intro e2 henc
    simp only [wrapper.Result, setRes]
    simp [applyEnc, henc]

/-- Witness for C8 at the test fixtures: Result 200 on a fresh response
records status 200, writes the encoder's byte and returns nil. -/
theorem result_contract_witness :
    (wrapper.Result testW 200 "x").map (fun p => p.1.res.map Res.status) =
      some (some (some 200)) ∧
    (wrapper.Result testW 200 "x").map (fun p => (p.1.res.map Res.body, p.2)) =
      some (some (Res.fresh.body ++ [111]), none) :=
  ⟨(result_contract testRoute testReq Res.fresh "x").1 rfl,
   (result_contract testRoute testReq Res.fresh "x").2.1 [111] rfl rfl rfl⟩

/-!
Model of the contrib msgpack codec. The codec's Go source is not under
src/ (only its module declaration is), so Marshal and Unmarshal are
modelled from the spec: they delegate to an external msgpack
encoder/decoder over a universe of encodable values (nil, booleans,
64-bit integers, binary blobs, arrays), with the library's documented
lossiness boundaries expressed by the `okB` encodability predicate
(integers restricted to the int64 range, lengths to 32 bits, bytes to
octets). The wire layout follows the msgpack format (nil 0xc0, false
0xc2, true 0xc3, int64 0xd3 big-endian, bin32 0xc6, array32 0xdd),
written with tag bytes in decimal.
-/

/-- Big-endian byte string of a natural, truncated to `k` bytes. -/
def natToBE : Nat → Nat → List Nat
  | 0, _ => []
  | k + 1, m => natToBE k (m / 256) ++ [m % 256]

/-- Natural denoted by a big-endian byte string. -/
def beToNat (l : List Nat) : Nat :=
  l.foldl (fun a b => 256 * a + b) 0

/-- Splits off the first `k` bytes, failing on truncated input. -/
def takeBytes (k : Nat) (l : List Nat) : Option (List Nat × List Nat) :=
  if k ≤ l.length then some (l.take k, l.drop k) else none

/-- Universe of values the external msgpack library model encodes. -/
inductive MVal where
  | nil
  | bool (b : Bool)
  | int (n : Int)
  | bin (bs : List Nat)
  | arr (vs : List MVal)

mutual

/-- Encodability predicate: the library's documented range limits
(int64 integers, 32-bit lengths, octet bytes). -/
def MVal.okB : MVal → Bool
  | .nil => true
  | .bool _ => true
  | .int n => decide (-(2 ^ 63) ≤ n) && decide (n < 2 ^ 63)
  | .bin bs => decide (bs.length < 2 ^ 32) && bs.all (fun b => decide (b < 256))
  | .arr vs => decide (vs.length < 2 ^ 32) && MVal.okBList vs

/-- Encodability of every element of a list of values. -/
def MVal.okBList : List MVal → Bool
  | [] => true
  | v :: t => MVal.okB v && MVal.okBList t

end

mutual

/-- Msgpack encoding of a value (the external encoder model). -/
def MVal.encode : MVal → List Nat
  | .nil => [192]
  | .bool false => [194]
  | .bool true => [195]
  | .int n => 211 :: natToBE 8 ((n % (2 ^ 64)).toNat)
  | .bin bs => 198 :: (natToBE 4 bs.length ++ bs)
  | .arr vs => 221 :: (natToBE 4 vs.length ++ MVal.encodeList vs)

/-- Concatenated encodings of a list of values (array payload). -/
def MVal.encodeList : List MVal → List Nat
  | [] => []
  | v :: t => MVal.encode v ++ MVal.encodeList t

end

/-- Decodes `n` consecutive values with the element decoder `dv`. -/
def decodeList (dv : List Nat → Option (MVal × List Nat)) :
    Nat → List Nat → Option (List MVal × List Nat)
  | 0, rest => some ([], rest)
  | n + 1, rest =>
    match dv rest with
    | none => none
    | some (v, rest1) =>
      match decodeList dv n rest1 with
      | none => none
      | some (vs, rest2) => some (v :: vs, rest2)

/-- Msgpack decoder (the external decoder model), fuelled by the nesting
budget; consumes one value and returns it with the remaining bytes. -/
def decodeV : Nat → List Nat → Option (MVal × List Nat)
  | 0, _ => none
  | _ + 1, [] => none
  | fuel + 1, b :: rest =>
    if b = 192 then some (.nil, rest)
    else if b = 194 then some (.bool false, rest)
    else if b = 195 then some (.bool true, rest)
    else if b = 211 then
      match takeBytes 8 rest with
      | none => none
      | some (bs, rest1) =>
        let m := beToNat bs
        some (.int (if m < 2 ^ 63 then (m : Int) else (m : Int) - 2 ^ 64), rest1)
    else if b = 198 then
      match takeBytes 4 rest with
      | none => none
      | some (lbs, rest1) =>
        match takeBytes (beToNat lbs) rest1 with
        | none => none
        | some (bs, rest2) => some (.bin bs, rest2)
    else if b = 221 then
      match takeBytes 4 rest with
      | none => none
      | some (lbs, rest1) =>
        match decodeList (fun bytes => decodeV fuel bytes) (beToNat lbs) rest1 with
        | none => none
        | some (vs, rest2) => some (.arr vs, rest2)
    else none

/-- Modelled from the spec: `Marshal(v any) ([]byte, error)` of the
msgpack codec (its Go source is absent from src/), which serializes v via
the external msgpack encoder; every value of the modelled universe is
representable, so no EncodingError arises here. -/
def Marshal (v : MVal) : Except EMsg (List Nat) :=
  Except.ok (MVal.encode v)

/-- Modelled from the spec: `Unmarshal(data []byte, v any) error` of the
msgpack codec (its Go source is absent from src/), which decodes data via
the external msgpack decoder into the target, failing with a
DecodingError on truncated or corrupt input. -/
def Unmarshal (data : List Nat) : Except EMsg MVal :=
  match decodeV (data.length + 1) data with
  | some (v, []) => Except.ok v
  | _ => Except.error "DecodingError"

lemma natToBE_length (k : Nat) : ∀ m, (natToBE k m).length = k := by
  induction k with
  | zero => intro m; rfl
  | succ k ih => intro m; simp [natToBE, ih]

lemma beToNat_append_one (l : List Nat) (y : Nat) :
    beToNat (l ++ [y]) = 256 * beToNat l + y := by
  unfold beToNat
  rw [List.foldl_append]
  rfl

lemma beToNat_natToBE (k : Nat) : ∀ m, beToNat (natToBE k m) = m % 256 ^ k := by
  induction k with
  | zero => intro m; simp [natToBE, beToNat, Nat.mod_one]
  | succ k ih =>
    intro m
    rw [natToBE, beToNat_append_one, ih]
    rw [pow_succ', Nat.mod_mul]
    omega

lemma takeBytes_exact (xs ys : List Nat) :
    takeBytes xs.length (xs ++ ys) = some (xs, ys) := by
  unfold takeBytes
  rw [if_pos]
  · rw [List.take_left, List.drop_left]
  · simp

lemma encode_length_pos (v : MVal) : 1 ≤ (MVal.encode v).length := by
  cases v with
  | nil => simp [MVal.encode]
  | bool b => cases b <;> simp [MVal.encode]
  | int n => simp [MVal.encode]
  | bin bs => simp [MVal.encode]
  | arr vs => simp [MVal.encode]

lemma mem_encodeList_le (u : MVal) (l : List MVal) (h : u ∈ l) :
    (MVal.encode u).length ≤ (MVal.encodeList l).length := by
  induction l with
  | nil => cases h
  | cons v t ih =>
    rw [MVal.encodeList]
    rcases List.mem_cons.mp h with h1 | h2
    · subst h1; simp
    · have := ih h2
      simp only [List.length_append]
      omega

lemma okBList_mem {l : List MVal} (h : MVal.okBList l = true) :
    ∀ u ∈ l, MVal.okB u = true := by
  induction l with
  | nil => intro u hu; cases hu
  | cons v t ih =>
    rw [MVal.okBList, Bool.and_eq_true] at h
    intro u hu
    rcases List.mem_cons.mp hu with h1 | h2
    · subst h1; exact h.1
    · exact ih h.2 u h2

lemma decodeList_encodeList (f : Nat)
    (ih : ∀ (v : MVal), MVal.okB v = true → (MVal.encode v).length ≤ f →
      ∀ rest, decodeV f (MVal.encode v ++ rest) = some (v, rest)) :
    ∀ (l : List MVal), (∀ u ∈ l, MVal.okB u = true) →
      (∀ u ∈ l, (MVal.encode u).length ≤ f) →
      ∀ rest, decodeList (fun bytes => decodeV f bytes) l.length
          (MVal.encodeList l ++ rest) = some (l, rest) := by
  intro l
  induction l with
  | nil =>
    intro _ _ rest
    rw [MVal.encodeList]
    rfl
  | cons v t iht =>
    intro hok hlen rest
    have hv : v ∈ v :: t := List.mem_cons_self v t
    rw [MVal.encodeList, List.append_assoc]
    show decodeList _ (t.length + 1) _ = _
    rw [decodeList]
    rw [ih v (hok v hv) (hlen v hv)]
    show (match decodeList (fun bytes => decodeV f bytes) t.length
            (MVal.encodeList t ++ rest) with
          | none => none
          | some (vs, rest2) => some (v :: vs, rest2)) = some (v :: t, rest)
    rw [iht (fun u hu => hok u (List.mem_cons_of_mem v hu))
        (fun u hu => hlen u (List.mem_cons_of_mem v hu)) rest]

theorem decodeV_encode (fuel : Nat) : ∀ (v : MVal), MVal.okB v = true →
    (MVal.encode v).length ≤ fuel →
    ∀ rest, decodeV fuel (MVal.encode v ++ rest) = some (v, rest) := by
  induction fuel with
  | zero =>
    intro v _ hlen rest
    have := encode_length_pos v
    omega
  | succ f ih =>
    intro v hok hlen rest
    cases v with
    | nil =>
      rw [MVal.encode]
      simp [decodeV]
    | bool b =>
      cases b <;> simp [MVal.encode, decodeV]
    | int n =>
      rw [MVal.okB, Bool.and_eq_true, decide_eq_true_eq, decide_eq_true_eq] at hok
      obtain ⟨hn1, hn2⟩ := hok
      rw [MVal.encode, List.cons_append]
      have ht : takeBytes 8 (natToBE 8 ((n % (2 ^ 64)).toNat) ++ rest)
          = some (natToBE 8 ((n % (2 ^ 64)).toNat), rest) := by
        have h8 := takeBytes_exact (natToBE 8 ((n % (2 ^ 64)).toNat)) rest
        rwa [natToBE_length] at h8
      simp only [decodeV, ht]
      norm_num
      rw [beToNat_natToBE]
      split <;> omega
    | bin bs =>
      rw [MVal.okB, Bool.and_eq_true, decide_eq_true_eq] at hok
      obtain ⟨hlt, _⟩ := hok
      rw [MVal.encode, List.cons_append, List.append_assoc]
      have ht4 : takeBytes 4 (natToBE 4 bs.length ++ (bs ++ rest))
          = some (natToBE 4 bs.length, bs ++ rest) := by
        have h4 := takeBytes_exact (natToBE 4 bs.length) (bs ++ rest)
        rwa [natToBE_length] at h4
      have hlen4 : beToNat (natToBE 4 bs.length) = bs.length := by
        rw [beToNat_natToBE]
        omega
      simp [decodeV, ht4, hlen4, takeBytes_exact]
    | arr vs =>
      rw [MVal.okB, Bool.and_eq_true, decide_eq_true_eq] at hok
      obtain ⟨hlt, hlist⟩ := hok
      have hmemok := okBList_mem hlist
      rw [MVal.encode] at hlen
      have hlen2 : ∀ u ∈ vs, (MVal.encode u).length ≤ f := by
        intro u hu
        have h1 := mem_encodeList_le u vs hu
        have h2 : (natToBE 4 vs.length).length = 4 := natToBE_length 4 _
        simp only [List.length_cons, List.length_append] at hlen
        omega
      have ht4 : takeBytes 4 (natToBE 4 vs.length ++ (MVal.encodeList vs ++ rest))
          = some (natToBE 4 vs.length, MVal.encodeList vs ++ rest) := by
        have h4 := takeBytes_exact (natToBE 4 vs.length) (MVal.encodeList vs ++ rest)
        rwa [natToBE_length] at h4
      have hlen4 : beToNat (natToBE 4 vs.length) = vs.length := by
        rw [beToNat_natToBE]
        omega
      have hdl := decodeList_encodeList f ih vs hmemok hlen2 rest
      rw [MVal.encode, List.cons_append, List.append_assoc]
      simp [decodeV, ht4, hlen4, hdl]

/-- C6: for every value v encodable by the msgpack library model,
decoding the bytes Marshal produced for v with Unmarshal reproduces a
value equal to v (round-trip law); the `okB` hypothesis marks the
documented lossiness boundary (int64 range, 32-bit lengths, octet
bytes), outside which the encoding is lossy. -/
theorem msgpack_roundtrip (v : MVal) (h : MVal.okB v = true) :
    ∀ bs, Marshal v = Except.ok bs → Unmarshal bs = Except.ok v := by
  intro bs hbs
  unfold Marshal at hbs
  injection hbs with hbs
  subst hbs
  unfold Unmarshal
  have hd := decodeV_encode ((MVal.encode v).length + 1) v h (by omega) []
  rw [List.append_nil] at hd
  rw [hd]

/-- Witness for C6: a concrete nested value (an array holding an integer,
a binary blob, a boolean and nil) round-trips through Marshal and
Unmarshal. -/
theorem msgpack_roundtrip_witness :
    Unmarshal (MVal.encode
        (MVal.arr [MVal.int (-5), MVal.bin [0, 255], MVal.bool true, MVal.nil]))
      = Except.ok
        (MVal.arr [MVal.int (-5), MVal.bin [0, 255], MVal.bool true, MVal.nil]) :=
  msgpack_roundtrip _ (by norm_num [MVal.okB, MVal.okBList]) _ rfl
